import Mathlib

/-!
Shallow embedding of the PDF text-patching core of `src/src-tauri/src/main.rs`
(trust-lens). Byte strings are `List Nat` (each entry one byte value) and
decoded text is `List Char`. The lopdf library boundary (PDF file parsing,
the content-stream byte codec and final serialization) is represented by
working on already-decoded content operations: `native_pdf_patch_core` models
`native_pdf_patch` from the point where the document's pages and their decoded
content operations are available, and the response's `output_data_url` field
carries the mutated document in place of its base64 serialization.
-/

namespace TrustLens

/-- Unicode replacement character U+FFFD emitted by Rust's lossy UTF-8
decoding (`String::from_utf8_lossy`). -/
def repl : Char := Char.ofNat 0xFFFD

/-- UTF-8 continuation byte test (0x80 ..= 0xBF). -/
def contB (b : Nat) : Bool := decide (0x80 ≤ b ∧ b ≤ 0xBF)

/-- Valid (lead, first continuation) pairs for 3-byte UTF-8 sequences,
mirroring Rust's `run_utf8_validation` table (excludes overlongs and
surrogates). -/
def valid3 (b0 b1 : Nat) : Bool :=
  (decide (b0 = 0xE0) && decide (0xA0 ≤ b1 ∧ b1 ≤ 0xBF)) ||
  (decide (0xE1 ≤ b0 ∧ b0 ≤ 0xEC) && contB b1) ||
  (decide (b0 = 0xED) && decide (0x80 ≤ b1 ∧ b1 ≤ 0x9F)) ||
  (decide (0xEE ≤ b0 ∧ b0 ≤ 0xEF) && contB b1)

/-- Valid (lead, first continuation) pairs for 4-byte UTF-8 sequences,
mirroring Rust's `run_utf8_validation` table. -/
def valid4 (b0 b1 : Nat) : Bool :=
  (decide (b0 = 0xF0) && decide (0x90 ≤ b1 ∧ b1 ≤ 0xBF)) ||
  (decide (0xF1 ≤ b0 ∧ b0 ≤ 0xF3) && contB b1) ||
  (decide (b0 = 0xF4) && decide (0x80 ≤ b1 ∧ b1 ≤ 0x8F))

/-- Worker of Rust's lossy UTF-8 decoder: decode the sequence led by byte
`b0` with remaining input `rest`, then continue. Invalid sequences become
U+FFFD and skip their maximal valid prefix exactly as Rust's validator
reports it (U+FFFD substitution of maximal subparts), so decoding resumes at
the first offending byte. -/
def utf8Dec : Nat → List Nat → List Char
  | b0, rest =>
    if b0 < 0x80 then
      Char.ofNat b0 :: (match rest with | [] => [] | b :: t => utf8Dec b t)
    else if b0 < 0xC2 then
      repl :: (match rest with | [] => [] | b :: t => utf8Dec b t)
    else if b0 ≤ 0xDF then
      match rest with
      | b1 :: rest1 =>
        if contB b1 then
          Char.ofNat ((b0 - 0xC0) * 0x40 + (b1 - 0x80)) ::
            (match rest1 with | [] => [] | b :: t => utf8Dec b t)
        else repl :: utf8Dec b1 rest1
      | [] => [repl]
    else if b0 ≤ 0xEF then
      match rest with
      | b1 :: rest1 =>
        if valid3 b0 b1 then
          match rest1 with
          | b2 :: rest2 =>
            if contB b2 then
              Char.ofNat ((b0 - 0xE0) * 0x1000 + (b1 - 0x80) * 0x40 + (b2 - 0x80)) ::
                (match rest2 with | [] => [] | b :: t => utf8Dec b t)
            else repl :: utf8Dec b2 rest2
          | [] => [repl]
        else repl :: utf8Dec b1 rest1
      | [] => [repl]
    else if b0 ≤ 0xF4 then
      match rest with
      | b1 :: rest1 =>
        if valid4 b0 b1 then
          match rest1 with
          | b2 :: rest2 =>
            if contB b2 then
              match rest2 with
              | b3 :: rest3 =>
                if contB b3 then
                  Char.ofNat ((b0 - 0xF0) * 0x40000 + (b1 - 0x80) * 0x1000 +
                    (b2 - 0x80) * 0x40 + (b3 - 0x80)) ::
                    (match rest3 with | [] => [] | b :: t => utf8Dec b t)
                else repl :: utf8Dec b3 rest3
              | [] => [repl]
            else repl :: utf8Dec b2 rest2
          | [] => [repl]
        else repl :: utf8Dec b1 rest1
      | [] => [repl]
    else
      repl :: (match rest with | [] => [] | b :: t => utf8Dec b t)

/-- Rust `String::from_utf8_lossy` on a byte list, as a character list. -/
def utf8LossyDecode : List Nat → List Char
  | [] => []
  | b :: rest => utf8Dec b rest

/-- UTF-8 encoding of one character (Rust `String::into_bytes` per char). -/
def utf8EncodeChar (c : Char) : List Nat :=
  let n := c.toNat
  if n < 0x80 then [n]
  else if n < 0x800 then [0xC0 + n / 0x40, 0x80 + n % 0x40]
  else if n < 0x10000 then
    [0xE0 + n / 0x1000, 0x80 + (n / 0x40) % 0x40, 0x80 + n % 0x40]
  else
    [0xF0 + n / 0x40000, 0x80 + (n / 0x1000) % 0x40, 0x80 + (n / 0x40) % 0x40,
      0x80 + n % 0x40]

/-- UTF-8 encoding of a character list (Rust `String::into_bytes`). -/
def utf8Encode (s : List Char) : List Nat := (s.map utf8EncodeChar).flatten

/-- Whether `pat` is an initial segment of `l` (the head test of Rust's
forward substring searcher). -/
def leadsWith : List Char → List Char → Bool
  | [], _ => true
  | _ :: _, [] => false
  | p :: ps, c :: cs => (p == c) && leadsWith ps cs

/-- Scanner of Rust's forward substring searcher, counting matches: the first
argument is the number of characters still to skip because they belong to the
match just counted (a match at a position consumes the whole pattern, making
the count non-overlapping and leftmost-first). -/
def countAux (pat : List Char) : Nat → List Char → Nat
  | Nat.succ k, _ :: cs => countAux pat k cs
  | _, [] => 0
  | 0, c :: cs =>
    if leadsWith pat (c :: cs) then 1 + countAux pat (pat.length - 1) cs
    else countAux pat 0 cs

/-- Number of non-overlapping leftmost-first occurrences of `pat`, as counted
by Rust's `str::matches(pat).count()` for a non-empty pattern (all call
sites in `replace_in_text` guard the pattern non-empty). -/
def countMatches (pat text : List Char) : Nat := countAux pat 0 text

/-- Scanner of Rust's forward substring searcher, substituting matches: the
skip counter works as in `countAux`, and `rep` is emitted in place of each
consumed match. -/
def replaceAux (pat rep : List Char) : Nat → List Char → List Char
  | Nat.succ k, _ :: cs => replaceAux pat rep k cs
  | _, [] => []
  | 0, c :: cs =>
    if leadsWith pat (c :: cs) then rep ++ replaceAux pat rep (pat.length - 1) cs
    else c :: replaceAux pat rep 0 cs

/-- Non-overlapping leftmost-first substitution of `pat` by `rep`, as done by
Rust's `str::replace` for a non-empty pattern (all call sites in
`replace_in_text` guard the pattern non-empty). -/
def replaceList (pat rep text : List Char) : List Char := replaceAux pat rep 0 text

/-- Whether `pat` occurs as a contiguous substring of the text (Rust
`str::contains`). -/
def containsSub (pat : List Char) : List Char → Bool
  | [] => leadsWith pat []
  | c :: cs => leadsWith pat (c :: cs) || containsSub pat cs

/-- Rust struct `PdfReplacementPatch`: one (originalText, newText) pair. -/
structure PdfReplacementPatch where
  original_text : List Char
  new_text : List Char

/-- Loop body of `replace_in_text` over the patch list, threading the
current text and hit count: patches with empty `original_text` or
`original_text == new_text` are skipped (`continue`), and an applied patch
counts its occurrences before substituting them (`let hits =
text.matches(..).count(); if hits > 0 { text = text.replace(..); count +=
hits; }`). -/
def replaceCoreAux : List Char × Nat → List PdfReplacementPatch → List Char × Nat
  | acc, [] => acc
  | acc, r :: rs =>
    if r.original_text = [] ∨ r.original_text = r.new_text then
      replaceCoreAux acc rs
    else
      if 0 < countMatches r.original_text acc.1 then
        replaceCoreAux
          (replaceList r.original_text r.new_text acc.1,
            acc.2 + countMatches r.original_text acc.1) rs
      else replaceCoreAux acc rs

/-- Text-level body of `replace_in_text`: run the patch loop on the decoded
text starting from a zero hit count. -/
def replaceCore (text : List Char) (reps : List PdfReplacementPatch) :
    List Char × Nat :=
  replaceCoreAux (text, 0) reps

/-- Rust `replace_in_text`: lossily decode the raw bytes, apply every patch in
order, and re-encode the resulting text, returning the new bytes and the
total hit count. -/
def replace_in_text (raw : List Nat) (reps : List PdfReplacementPatch) :
    List Nat × Nat :=
  (utf8Encode (replaceCore (utf8LossyDecode raw) reps).1,
    (replaceCore (utf8LossyDecode raw) reps).2)

/-- Rust `char::is_whitespace`: the Unicode White_Space property, written out
as its code-point table. -/
def rustIsWhitespace (c : Char) : Bool :=
  decide (c.toNat = 0x09 ∨ c.toNat = 0x0A ∨ c.toNat = 0x0B ∨ c.toNat = 0x0C ∨
    c.toNat = 0x0D ∨ c.toNat = 0x20 ∨ c.toNat = 0x85 ∨ c.toNat = 0xA0 ∨
    c.toNat = 0x1680 ∨ (0x2000 ≤ c.toNat ∧ c.toNat ≤ 0x200A) ∨
    c.toNat = 0x2028 ∨ c.toNat = 0x2029 ∨ c.toNat = 0x202F ∨
    c.toNat = 0x205F ∨ c.toNat = 0x3000)

/-- Rust `str::trim`: drop Unicode whitespace from both ends. -/
def rustTrim (l : List Char) : List Char :=
  ((l.dropWhile rustIsWhitespace).reverse.dropWhile rustIsWhitespace).reverse

/-- The patch filter of `native_pdf_patch`:
`!r.original_text.trim().is_empty() && r.original_text != r.new_text`. -/
def keepPatch (r : PdfReplacementPatch) : Bool :=
  !(rustTrim r.original_text).isEmpty && (r.original_text != r.new_text)

/-- lopdf `Object`, restricted to the shapes `native_pdf_patch` inspects:
byte strings, arrays, numbers, and everything else collapsed to `other`. -/
inductive PdfObj where
  | str (bytes : List Nat)
  | arr (items : List PdfObj)
  | num (v : Int)
  | other

/-- Discriminator for the `Object::String` variant. -/
def isStrObj : PdfObj → Bool
  | .str _ => true
  | _ => false

/-- lopdf `content::Operation`: an operator name together with its ordered
operands. -/
structure Operation where
  operator : String
  operands : List PdfObj

/-- One document page: its indirect-object id, the id its `Contents` entry
references, and the decoded content operations of that contents stream. -/
structure Page where
  page_id : Nat
  contents_ref : Nat
  ops : List Operation

/-- The loaded document as `native_pdf_patch` sees it: pages in enumeration
order plus lopdf's allocation high-water mark `max_id` (lopdf
`Document::add_object` allocates `max_id + 1`). -/
structure PdfDoc where
  pages : List Page
  max_id : Nat

/-- Rust struct `NativePdfPatchResponse`; `output_data_url` carries the
mutated document in place of its base64-encoded serialization (the
`doc.compress(); doc.save_to(..)` + base64 step is the lopdf/transport
boundary). -/
structure NativePdfPatchResponse where
  success : Bool
  engine : String
  replaced_count : Nat
  output_data_url : Option PdfDoc
  message : String

/-- Operand write-back used in both the `"Tj" | "'" | "\x22"` and the `"TJ"`
arms: run `replace_in_text` and keep the original bytes unless some hit
occurred (`if hits > 0 { *raw = next; .. }`). -/
def patchStr (reps : List PdfReplacementPatch) (raw : List Nat) :
    List Nat × Nat :=
  if 0 < (replace_in_text raw reps).2 then replace_in_text raw reps
  else (raw, 0)

/-- The per-entry body of the `"TJ"` arm: only `Object::String` entries are
rewritten, every other entry is returned unchanged with zero hits. -/
def patchEntry (reps : List PdfReplacementPatch) : PdfObj → PdfObj × Nat
  | .str raw => ((PdfObj.str (patchStr reps raw).1), (patchStr reps raw).2)
  | o => (o, 0)

/-- The per-operation body of the page loop of `native_pdf_patch`: for
`Tj`/`'`/`"` the first operand is rewritten when it is a string; for `TJ`
every string entry of a first array operand is rewritten; all other
operators are untouched. Returns the new operation and its hit count. -/
def patchOp (reps : List PdfReplacementPatch) (op : Operation) :
    Operation × Nat :=
  if op.operator = "Tj" ∨ op.operator = "'" ∨ op.operator = "\"" then
    match op.operands with
    | PdfObj.str raw :: rest =>
      (⟨op.operator, PdfObj.str (patchStr reps raw).1 :: rest⟩,
        (patchStr reps raw).2)
    | _ => (op, 0)
  else if op.operator = "TJ" then
    match op.operands with
    | PdfObj.arr items :: rest =>
      (⟨op.operator,
          PdfObj.arr ((items.map (patchEntry reps)).map Prod.fst) :: rest⟩,
        ((items.map (patchEntry reps)).map Prod.snd).sum)
    | _ => (op, 0)
  else (op, 0)

/-- One page's operation loop: rewrite every operation and total the hits
(`changed_this_page` in the source is equivalent to a positive total, since
it is set exactly when some operand had `hits > 0`). -/
def patchPageOps (reps : List PdfReplacementPatch) (ops : List Operation) :
    List Operation × Nat :=
  ((ops.map (patchOp reps)).map Prod.fst,
    ((ops.map (patchOp reps)).map Prod.snd).sum)

/-- The page loop of `native_pdf_patch`: pages with a positive hit count get
a freshly allocated stream object (`doc.add_object` yields `max_id + 1`) and
their `Contents` entry repointed to it; untouched pages are passed through
unchanged. Returns the new page list, the final allocation high-water mark,
and the total hit count. -/
def processPages (reps : List PdfReplacementPatch) :
    List Page → Nat → List Page × Nat × Nat
  | [], n => ([], n, 0)
  | pg :: rest, n =>
    if 0 < (patchPageOps reps pg.ops).2 then
      (⟨pg.page_id, n + 1, (patchPageOps reps pg.ops).1⟩ ::
          (processPages reps rest (n + 1)).1,
        (processPages reps rest (n + 1)).2.1,
        (patchPageOps reps pg.ops).2 + (processPages reps rest (n + 1)).2.2)
    else
      (pg :: (processPages reps rest n).1,
        (processPages reps rest n).2.1,
        (patchPageOps reps pg.ops).2 + (processPages reps rest n).2.2)

/-- Engine identifier reported in every response. -/
def engineName : String := "lopdf-native-object-patch"

/-- Message of the empty-filter no-op response. -/
def msgNoValid : String := "No valid replacements were provided."

/-- Message of the zero-hit no-op response. -/
def msgNoMatch : String := "No matching text objects were found for replacement."

/-- Message of the success response. -/
def msgDone : String := "Native object patch completed."

/-- Rust `native_pdf_patch` from the point where the document is loaded:
filter the patches, return the two no-op `Ok` responses when nothing is to be
done or nothing matched, and otherwise return the mutated document with the
total hit count. Errors of the omitted library calls (PDF parse, content
decode/encode, save) are the `Except.error` side, which this core never
takes. -/
def native_pdf_patch_core (replacements : List PdfReplacementPatch)
    (doc : PdfDoc) : Except String NativePdfPatchResponse :=
  if (replacements.filter keepPatch).isEmpty then
    .ok ⟨false, engineName, 0, none, msgNoValid⟩
  else
    if (processPages (replacements.filter keepPatch) doc.pages doc.max_id).2.2 = 0 then
      .ok ⟨false, engineName, 0, none, msgNoMatch⟩
    else
      .ok ⟨true, engineName,
        (processPages (replacements.filter keepPatch) doc.pages doc.max_id).2.2,
        some ⟨(processPages (replacements.filter keepPatch) doc.pages doc.max_id).1,
          (processPages (replacements.filter keepPatch) doc.pages doc.max_id).2.1⟩,
        msgDone⟩

/-- Boolean error discriminator for `Except`. -/
def isErrB : Except String NativePdfPatchResponse → Bool
  | .error _ => true
  | .ok _ => false

/-- Response projection of an `Except`, with an all-zero response on the
error side. -/
def respOf : Except String NativePdfPatchResponse → NativePdfPatchResponse
  | .ok r => r
  | .error _ => ⟨false, "", 0, none, ""⟩

/-- Output-document projection of a response, defaulting to the empty
document. -/
def outDocOf (r : NativePdfPatchResponse) : PdfDoc :=
  match r.output_data_url with
  | some d => d
  | none => ⟨[], 0⟩

/-- Default page used with `List.getD` when indexing page lists. -/
def dfltPage : Page := ⟨0, 0, []⟩

/-- Concrete example patch: replace "World" by "Universe". -/
def pW : PdfReplacementPatch := ⟨"World".toList, "Universe".toList⟩

/-- Concrete example document: one page whose single `Tj` operation shows
"Hello World". -/
def docW : PdfDoc :=
  ⟨[⟨1, 5, [⟨"Tj", [PdfObj.str [72, 101, 108, 108, 111, 32, 87, 111, 114,
      108, 100]]⟩]⟩], 10⟩

/-- Occurrence count of `pat` inside one operand object (its decoded string
content for string objects, zero otherwise). -/
def objMatches (pat : List Char) : PdfObj → Nat
  | .str raw => countMatches pat (utf8LossyDecode raw)
  | _ => 0

/-- Occurrence count of `pat` inside the show-text operands of one content
operation, following exactly the operand positions `native_pdf_patch`
examines. -/
def opMatches (pat : List Char) (op : Operation) : Nat :=
  if op.operator = "Tj" ∨ op.operator = "'" ∨ op.operator = "\"" then
    match op.operands with
    | PdfObj.str raw :: _ => countMatches pat (utf8LossyDecode raw)
    | _ => 0
  else if op.operator = "TJ" then
    match op.operands with
    | PdfObj.arr items :: _ => (items.map (objMatches pat)).sum
    | _ => 0
  else 0

/-- Occurrence count of `pat` inside the show-text operands of one page. -/
def pageMatches (pat : List Char) (pg : Page) : Nat :=
  (pg.ops.map (opMatches pat)).sum

/-- Occurrence count of `pat` inside the show-text operands of the whole
document. -/
def docMatches (pat : List Char) (doc : PdfDoc) : Nat :=
  (doc.pages.map (pageMatches pat)).sum

/-- Spec-side occurrence count inside one operation's show-text operands,
following the spec's words rather than the code: for the single-string show
operators (`Tj`, `'`, `"`) every string-typed operand counts — a conforming
stream has exactly one, wherever among the operands it sits — and for `TJ`
every string entry of the array operand counts. Compare `opMatches`, which
follows the operand positions the code actually examines (index 0 only). -/
def specOpMatches (pat : List Char) (op : Operation) : Nat :=
  if op.operator = "Tj" ∨ op.operator = "'" ∨ op.operator = "\"" then
    (op.operands.map (objMatches pat)).sum
  else if op.operator = "TJ" then
    match op.operands with
    | PdfObj.arr items :: _ => (items.map (objMatches pat)).sum
    | _ => 0
  else 0

/-- Spec-side occurrence count inside the show-text operands of the whole
document (see `specOpMatches`). -/
def specDocMatches (pat : List Char) (doc : PdfDoc) : Nat :=
  (doc.pages.map (fun pg => (pg.ops.map (specOpMatches pat)).sum)).sum

/-- Concrete example document: one page whose single `Tj` operation shows
"a b" (one occurrence of the single-space text). -/
def docSpace : PdfDoc := ⟨[⟨1, 4, [⟨"Tj", [PdfObj.str [97, 32, 98]]⟩]⟩], 9⟩

/-- Concrete example document: one page whose single operation is a
conforming `"` (set-spacing-and-show-text) operation `0 0 (Hello) "`, its
string operand third after the two spacing numbers. -/
def docQuote : PdfDoc :=
  ⟨[⟨1, 4, [⟨"\"", [PdfObj.num 0, PdfObj.num 0,
      PdfObj.str [72, 101, 108, 108, 111]]⟩]⟩], 9⟩

/-- The marker string ";base64" as a character list. -/
def b64marker : List Char := [';', 'b', 'a', 's', 'e', '6', '4']

/-- Base64 value of one character of the standard alphabet. -/
def b64Val (c : Char) : Option Nat :=
  if 65 ≤ c.toNat ∧ c.toNat ≤ 90 then some (c.toNat - 65)
  else if 97 ≤ c.toNat ∧ c.toNat ≤ 122 then some (c.toNat - 97 + 26)
  else if 48 ≤ c.toNat ∧ c.toNat ≤ 57 then some (c.toNat - 48 + 52)
  else if c = '+' then some 62
  else if c = '/' then some 63
  else none

/-- base64 `general_purpose::STANDARD.decode`: canonical padding required,
nonzero trailing bits rejected, padding only at the very end. -/
def base64Decode : List Char → Option (List Nat)
  | [] => some []
  | c1 :: c2 :: c3 :: c4 :: rest =>
    match b64Val c1, b64Val c2 with
    | some v1, some v2 =>
      if c3 = '=' then
        if c4 = '=' ∧ rest = [] ∧ v2 % 16 = 0 then
          some [v1 * 4 + v2 / 16]
        else none
      else
        match b64Val c3 with
        | some v3 =>
          if c4 = '=' then
            if rest = [] ∧ v3 % 4 = 0 then
              some [v1 * 4 + v2 / 16, (v2 % 16) * 16 + v3 / 4]
            else none
          else
            match b64Val c4 with
            | some v4 =>
              match base64Decode rest with
              | some bs =>
                some ([v1 * 4 + v2 / 16, (v2 % 16) * 16 + v3 / 4,
                  (v3 % 4) * 64 + v4] ++ bs)
              | none => none
            | none => none
        | none => none
    | _, _ => none
  | _ => none

/-- Split at the first comma (Rust `data_url.find(',')` plus the two slices
around it), or `none` when there is no comma. -/
def findComma : List Char → Option (List Char × List Char)
  | [] => none
  | c :: cs =>
    if c = ',' then some ([], cs)
    else
      match findComma cs with
      | some (m, p) => some (c :: m, p)
      | none => none

/-- Rust `data_url_to_bytes`: require a comma separator, require the marker
`;base64` inside the meta part before the comma, then base64-decode the
payload after the comma. -/
def data_url_to_bytes (s : List Char) : Except String (List Nat) :=
  match findComma s with
  | none => .error "Invalid data URL (missing comma separator)"
  | some (meta, payload) =>
    if containsSub b64marker meta = true then
      match base64Decode payload with
      | some bs => .ok bs
      | none => .error "Failed to decode base64 data URL"
    else
      .error "Only base64 data URLs are supported for native PDF patching"

/-- The claim-side malformedness condition for a data URL: no comma
separator, or no `;base64` marker before it, or an invalid base64 payload. -/
def malformedDataUrl (s : List Char) : Bool :=
  match findComma s with
  | none => true
  | some (meta, payload) =>
    !containsSub b64marker meta || (base64Decode payload).isNone

/-- Boolean error discriminator for the byte-decoding `Except`. -/
def isErrBytes : Except String (List Nat) → Bool
  | .error _ => true
  | .ok _ => false

/-!
Lemmas about the substring scanner.
-/

theorem leadsWith_append_self (p l : List Char) : leadsWith p (p ++ l) = true := by
  induction p with
  | nil => simp [leadsWith]
  | cons a ps ih => simp [leadsWith, ih]

theorem containsSub_of_leadsWith {pat l : List Char} (h : leadsWith pat l = true) :
    containsSub pat l = true := by
  cases l with
  | nil => simpa [containsSub] using h
  | cons c cs => simp [containsSub, h]

theorem leadsWith_nil_of_ne {pat : List Char} (hp : pat ≠ []) :
    leadsWith pat [] = false := by
  obtain ⟨a, as, rfl⟩ := List.exists_cons_of_ne_nil hp
  rfl

theorem countMatches_pos_of_contains {pat : List Char} (hp : pat ≠ []) :
    ∀ text : List Char, containsSub pat text = true → 0 < countMatches pat text := by
  intro text
  induction text with
  | nil => simp [containsSub, leadsWith_nil_of_ne hp]
  | cons c cs ih =>
    intro h
    rw [containsSub, Bool.or_eq_true] at h
    unfold countMatches countAux
    by_cases hL : leadsWith pat (c :: cs) = true
    · rw [if_pos hL]; omega
    · rw [if_neg hL]
      rcases h with h | h
      · exact absurd h hL
      · exact ih h

theorem contains_replaceList {pat rep : List Char} (hp : pat ≠ []) :
    ∀ text : List Char, containsSub pat text = true →
      containsSub rep (replaceList pat rep text) = true := by
  intro text
  induction text with
  | nil => simp [containsSub, leadsWith_nil_of_ne hp]
  | cons c cs ih =>
    intro h
    rw [containsSub, Bool.or_eq_true] at h
    by_cases hL : leadsWith pat (c :: cs) = true
    · unfold replaceList replaceAux
      rw [if_pos hL]
      exact containsSub_of_leadsWith (leadsWith_append_self rep _)
    · unfold replaceList replaceAux
      rw [if_neg hL]
      rcases h with h | h
      · exact absurd h hL
      · have := ih h
        rw [containsSub, Bool.or_eq_true]
        exact Or.inr this

/-!
Step equations of the patch loop.
-/

theorem replaceCoreAux_skip (acc : List Char × Nat) (r : PdfReplacementPatch)
    (rs : List PdfReplacementPatch)
    (h : r.original_text = [] ∨ r.original_text = r.new_text) :
    replaceCoreAux acc (r :: rs) = replaceCoreAux acc rs := by
  conv_lhs => rw [replaceCoreAux]
  rw [if_pos h]

theorem replaceCoreAux_apply (acc : List Char × Nat) (r : PdfReplacementPatch)
    (rs : List PdfReplacementPatch)
    (hg : ¬(r.original_text = [] ∨ r.original_text = r.new_text))
    (hm : 0 < countMatches r.original_text acc.1) :
    replaceCoreAux acc (r :: rs) =
      replaceCoreAux (replaceList r.original_text r.new_text acc.1,
        acc.2 + countMatches r.original_text acc.1) rs := by
  conv_lhs => rw [replaceCoreAux]
  rw [if_neg hg, if_pos hm]

theorem replaceCoreAux_noHits (acc : List Char × Nat) (r : PdfReplacementPatch)
    (rs : List PdfReplacementPatch)
    (hm : ¬ 0 < countMatches r.original_text acc.1) :
    replaceCoreAux acc (r :: rs) = replaceCoreAux acc rs := by
  conv_lhs => rw [replaceCoreAux]
  by_cases hg : r.original_text = [] ∨ r.original_text = r.new_text
  · rw [if_pos hg]
  · rw [if_neg hg, if_neg hm]

/-- C2: patches are applied sequentially, not simultaneously — for every
operand text containing `A`, applying the patch list `[(A, B), (B, C)]` with
`A`, `B`, `C` pairwise distinct and non-empty yields text containing `C`,
because the second patch matches the text introduced by the first. -/
theorem c2_sequential_patch_chaining (A B C text : List Char)
    (hA : A ≠ []) (hB : B ≠ []) (hC : C ≠ [])
    (hAB : A ≠ B) (hBC : B ≠ C) (hAC : A ≠ C)
    (hcont : containsSub A text = true) :
    containsSub C (replaceCore text [⟨A, B⟩, ⟨B, C⟩]).1 = true := by
  have hm1 : 0 < countMatches A text := countMatches_pos_of_contains hA text hcont
  have hc1 : containsSub B (replaceList A B text) = true :=
    contains_replaceList hA text hcont
  have hm2 : 0 < countMatches B (replaceList A B text) :=
    countMatches_pos_of_contains hB _ hc1
  have hres : containsSub C (replaceList B C (replaceList A B text)) = true :=
    contains_replaceList hB _ hc1
  have hval : (replaceCore text [⟨A, B⟩, ⟨B, C⟩]).1 =
      replaceList B C (replaceList A B text) := by
    unfold replaceCore
    rw [replaceCoreAux_apply _ _ _ (by exact fun h => h.elim hA hAB) hm1]
    rw [replaceCoreAux_apply _ _ _ (by exact fun h => h.elim hB hBC) hm2]
    rfl
  rw [hval]
  exact hres

theorem c2_witness :
    containsSub ['c'] (replaceCore ['a'] [⟨['a'], ['b']⟩, ⟨['b'], ['c']⟩]).1 = true :=
  c2_sequential_patch_chaining ['a'] ['b'] ['c'] ['a'] (by decide) (by decide)
    (by decide) (by decide) (by decide) (by decide) (by decide)

/-!
C4: the patch filter.
-/

theorem rustTrim_nil : rustTrim [] = [] := rfl

theorem keepPatch_true_iff (r : PdfReplacementPatch) :
    keepPatch r = true ↔
      (rustTrim r.original_text ≠ [] ∧ r.original_text ≠ r.new_text) := by
  simp [keepPatch, List.isEmpty_iff, bne_iff_ne]

/-- C4 counterexample: the patch `(" ", "x")` has a non-empty `originalText`
that differs from its `newText`, yet the filter of `native_pdf_patch`
discards it because `originalText.trim()` is empty — refuting the claimed
"discarded iff empty or equal" equivalence. -/
theorem c4_claim_counterexample :
    keepPatch ⟨[' '], ['x']⟩ = false ∧
      ([' '] : List Char) ≠ [] ∧ ([' '] : List Char) ≠ ['x'] := by
  decide

/-- C4 (amended): a patch is discarded by the filter exactly when its
`originalText` trims to the empty string under Unicode whitespace trimming or
equals its `newText`; every retained patch also passes the inner guard of
`replace_in_text` (non-empty and different from `newText`), so it is
applied. -/
theorem c4_trimmed_discard_iff (r : PdfReplacementPatch) :
    (keepPatch r = false ↔
      (rustTrim r.original_text = [] ∨ r.original_text = r.new_text)) ∧
    (keepPatch r = true →
      ¬(r.original_text = [] ∨ r.original_text = r.new_text)) := by
  constructor
  · constructor
    · intro h
      by_contra hc
      push_neg at hc
      have : keepPatch r = true := (keepPatch_true_iff r).mpr ⟨hc.1, hc.2⟩
      rw [h] at this
      exact Bool.noConfusion this
    · intro h
      cases hk : keepPatch r with
      | false => rfl
      | true =>
        obtain ⟨htrim, hne⟩ := (keepPatch_true_iff r).mp hk
        rcases h with h | h
        · exact absurd (by simp [h, rustTrim_nil]) htrim
        · exact absurd h hne
  · intro hk hor
    obtain ⟨htrim, hne⟩ := (keepPatch_true_iff r).mp hk
    rcases hor with h | h
    · exact htrim (by simp [h, rustTrim_nil])
    · exact hne h

theorem c4_amended_witness :
    keepPatch ⟨['a'], ['b']⟩ = true ∧
      ¬((['a'] : List Char) = [] ∨ (['a'] : List Char) = ['b']) :=
  ⟨by decide, (c4_trimmed_discard_iff ⟨['a'], ['b']⟩).2 (by decide)⟩

/-!
C8: totality of the replacement routine under lossy decoding.
-/

theorem utf8Dec_ne_nil (b : Nat) (rest : List Nat) : utf8Dec b rest ≠ [] := by
  unfold utf8Dec
  repeat' split
  all_goals simp

/-- C8: the text replacement routine is total — for every input byte string
(including sequences that are not valid UTF-8) and every patch list it
returns a (bytes, hits) pair; invalid byte sequences are decoded lossily
into the U+FFFD placeholder rather than failing, as witnessed on concrete
invalid inputs. -/
theorem c8_replace_total_lossy :
    (∀ (raw : List Nat) (reps : List PdfReplacementPatch),
      ∃ out cnt, replace_in_text raw reps = (out, cnt)) ∧
    (∀ raw : List Nat, raw ≠ [] → utf8LossyDecode raw ≠ []) ∧
    utf8LossyDecode [0xFF, 0xC2] = [repl, repl] ∧
    replace_in_text [0xFF] [⟨['a'], ['b']⟩] = ([0xEF, 0xBF, 0xBD], 0) := by
  refine ⟨fun raw reps => ⟨_, _, rfl⟩, ?_, rfl, rfl⟩
  intro raw h
  cases raw with
  | nil => exact absurd rfl h
  | cons b rest => exact utf8Dec_ne_nil b rest

theorem c8_witness : utf8LossyDecode [0x80] ≠ [] :=
  c8_replace_total_lossy.2.1 [0x80] (by decide)

/-- C10: a string operand whose replacement yields zero hits keeps its
original bytes exactly — the lossily re-encoded text is written back only on
a strictly positive hit count — so operands holding invalid UTF-8 are not
silently re-encoded unless a patch matched, even though `replace_in_text`
itself would have re-encoded them. -/
theorem c10_zero_hit_operand_bytes_preserved :
    (∀ (reps : List PdfReplacementPatch) (raw : List Nat),
      (replace_in_text raw reps).2 = 0 → patchStr reps raw = (raw, 0)) ∧
    patchStr [⟨['a'], ['b']⟩] [0xFF] = ([0xFF], 0) ∧
    (replace_in_text [0xFF] [⟨['a'], ['b']⟩]).1 ≠ [0xFF] := by
  refine ⟨?_, rfl, by decide⟩
  intro reps raw h
  unfold patchStr
  rw [if_neg (by omega)]

theorem c10_witness :
    (replace_in_text [0xFE] []).2 = 0 ∧ patchStr [] [0xFE] = ([0xFE], 0) :=
  ⟨by decide, c10_zero_hit_operand_bytes_preserved.1 [] [0xFE] (by decide)⟩

/-- C3 (code bug): the source inspects only operand index 0 for all of
`Tj`, `'` and `"`, but the `"` (set-spacing-and-show-text) operator carries
its string operand third, after the two spacing numbers — so on a conforming
`"` operation the string operand is neither replaced nor counted (left
conjunct), although the very same string operand under `Tj` is replaced and
counted (right conjunct). -/
theorem c3_quote_operator_string_operand_ignored :
    patchOp [⟨['H', 'e', 'l', 'l', 'o'], ['B', 'y', 'e']⟩]
        ⟨"\"", [PdfObj.num 0, PdfObj.num 0, PdfObj.str [72, 101, 108, 108, 111]]⟩ =
      (⟨"\"", [PdfObj.num 0, PdfObj.num 0, PdfObj.str [72, 101, 108, 108, 111]]⟩, 0) ∧
    patchOp [⟨['H', 'e', 'l', 'l', 'o'], ['B', 'y', 'e']⟩]
        ⟨"Tj", [PdfObj.str [72, 101, 108, 108, 111]]⟩ =
      (⟨"Tj", [PdfObj.str [66, 121, 101]]⟩, 1) :=
  ⟨rfl, rfl⟩

/-!
C7: the TJ array arm.
-/

theorem patchEntry_nonstr (reps : List PdfReplacementPatch) (o : PdfObj)
    (h : isStrObj o = false) : patchEntry reps o = (o, 0) := by
  cases o with
  | str raw => simp [isStrObj] at h
  | arr items => rfl
  | num v => rfl
  | other => rfl

theorem getD_map_patchEntry_str (reps : List PdfReplacementPatch)
    (items : List PdfObj) :
    ∀ i raw, items.getD i PdfObj.other = PdfObj.str raw →
      ((items.map (patchEntry reps)).map Prod.fst).getD i PdfObj.other =
        PdfObj.str (patchStr reps raw).1 := by
  induction items with
  | nil =>
    intro i raw h
    simp [List.getD] at h
  | cons o os ih =>
    intro i raw h
    cases i with
    | zero =>
      rw [List.getD_cons_zero] at h
      subst h
      simp [List.getD_cons_zero, patchEntry]
    | succ j =>
      rw [List.getD_cons_succ] at h
      simpa [List.getD_cons_succ] using ih j raw h

theorem getD_map_patchEntry_nonstr (reps : List PdfReplacementPatch)
    (items : List PdfObj) :
    ∀ i, i < items.length → isStrObj (items.getD i PdfObj.other) = false →
      ((items.map (patchEntry reps)).map Prod.fst).getD i PdfObj.other =
        items.getD i PdfObj.other := by
  induction items with
  | nil =>
    intro i h
    simp at h
  | cons o os ih =>
    intro i hlt h
    cases i with
    | zero =>
      rw [List.getD_cons_zero] at h
      simp [List.getD_cons_zero, patchEntry_nonstr reps o h]
    | succ j =>
      simp only [List.getD_cons_succ] at h ⊢
      exact ih j (by simpa using hlt) h

/-- C7: on a `TJ` operation whose first operand is an array, replacement is
applied to every string entry (each becomes the `patchStr` write-back of its
bytes), every non-string entry is left unchanged at its original position,
and the array's length and entry order are preserved. -/
theorem c7_tj_array_entries (reps : List PdfReplacementPatch) (op : Operation)
    (items rest : List PdfObj) (hop : op.operator = "TJ")
    (hods : op.operands = PdfObj.arr items :: rest) :
    (patchOp reps op).1 =
      ⟨"TJ", PdfObj.arr ((items.map (patchEntry reps)).map Prod.fst) :: rest⟩ ∧
    ((items.map (patchEntry reps)).map Prod.fst).length = items.length ∧
    (∀ i raw, items.getD i PdfObj.other = PdfObj.str raw →
      ((items.map (patchEntry reps)).map Prod.fst).getD i PdfObj.other =
        PdfObj.str (patchStr reps raw).1) ∧
    (∀ i, i < items.length → isStrObj (items.getD i PdfObj.other) = false →
      ((items.map (patchEntry reps)).map Prod.fst).getD i PdfObj.other =
        items.getD i PdfObj.other) := by
  refine ⟨?_, by simp, getD_map_patchEntry_str reps items,
    getD_map_patchEntry_nonstr reps items⟩
  obtain ⟨oper, ods⟩ := op
  simp only at hop hods
  subst hop
  subst hods
  rfl

theorem c7_witness :
    (([PdfObj.str [97], PdfObj.num 5, PdfObj.str [98]].map
        (patchEntry [⟨['a'], ['x']⟩])).map Prod.fst).getD 1 PdfObj.other =
      PdfObj.num 5 ∧
    (([PdfObj.str [97], PdfObj.num 5, PdfObj.str [98]].map
        (patchEntry [⟨['a'], ['x']⟩])).map Prod.fst).getD 0 PdfObj.other =
      PdfObj.str [120] := by
  have h := c7_tj_array_entries [⟨['a'], ['x']⟩]
    ⟨"TJ", [PdfObj.arr [PdfObj.str [97], PdfObj.num 5, PdfObj.str [98]]]⟩
    [PdfObj.str [97], PdfObj.num 5, PdfObj.str [98]] [] rfl rfl
  refine ⟨h.2.2.2 1 (by decide) rfl, ?_⟩
  exact (h.2.2.1 0 [97] rfl).trans (by rfl)

/-!
Machinery for C1, C5 and C6: write-back, counting, and the page loop.
-/

theorem patchStr_snd_eq_zero (reps : List PdfReplacementPatch) (raw : List Nat)
    (h : (patchStr reps raw).2 = 0) : patchStr reps raw = (raw, 0) := by
  by_cases hpos : 0 < (replace_in_text raw reps).2
  · unfold patchStr at h
    rw [if_pos hpos] at h
    omega
  · unfold patchStr
    rw [if_neg hpos]

theorem patchEntry_snd_zero (reps : List PdfReplacementPatch) (o : PdfObj)
    (h : (patchEntry reps o).2 = 0) : (patchEntry reps o).1 = o := by
  cases o with
  | str raw =>
    have hz := patchStr_snd_eq_zero reps raw (by simpa [patchEntry] using h)
    simp [patchEntry, hz]
  | arr items => rfl
  | num v => rfl
  | other => rfl

theorem map_patchEntry_fst_of_sum_zero (reps : List PdfReplacementPatch) :
    ∀ items : List PdfObj,
      ((items.map (patchEntry reps)).map Prod.snd).sum = 0 →
      (items.map (patchEntry reps)).map Prod.fst = items := by
  intro items
  induction items with
  | nil => intro _; rfl
  | cons o os ih =>
    intro h
    simp only [List.map_cons, List.sum_cons] at h ⊢
    have h1 : (patchEntry reps o).2 = 0 := by omega
    have h2 : ((os.map (patchEntry reps)).map Prod.snd).sum = 0 := by omega
    rw [patchEntry_snd_zero reps o h1, ih h2]

theorem patchOp_snd_zero (reps : List PdfReplacementPatch) (op : Operation)
    (h : (patchOp reps op).2 = 0) : (patchOp reps op).1 = op := by
  obtain ⟨oper, ods⟩ := op
  unfold patchOp at h ⊢
  by_cases h1 : (Operation.mk oper ods).operator = "Tj" ∨
      (Operation.mk oper ods).operator = "'" ∨
      (Operation.mk oper ods).operator = "\""
  · rw [if_pos h1] at h ⊢
    cases ods with
    | nil => rfl
    | cons o rest =>
      cases o with
      | str raw =>
        have hz := patchStr_snd_eq_zero reps raw h
        simp only
        rw [hz]
      | arr items => rfl
      | num v => rfl
      | other => rfl
  · rw [if_neg h1] at h ⊢
    by_cases h2 : (Operation.mk oper ods).operator = "TJ"
    · rw [if_pos h2] at h ⊢
      cases ods with
      | nil => rfl
      | cons o rest =>
        cases o with
        | str raw => rfl
        | arr items =>
          simp only at h ⊢
          rw [map_patchEntry_fst_of_sum_zero reps items h]
        | num v => rfl
        | other => rfl
    · rw [if_neg h2]

theorem patchPageOps_fst (reps : List PdfReplacementPatch)
    (ops : List Operation) :
    (patchPageOps reps ops).1 = ops.map (fun op => (patchOp reps op).1) := by
  simp [patchPageOps, List.map_map, Function.comp]

theorem patchPageOps_fst_of_sum_zero (reps : List PdfReplacementPatch) :
    ∀ ops : List Operation, (patchPageOps reps ops).2 = 0 →
      (patchPageOps reps ops).1 = ops := by
  intro ops
  induction ops with
  | nil => intro _; rfl
  | cons op os ih =>
    intro h
    simp only [patchPageOps, List.map_cons, List.sum_cons] at h ⊢
    have h1 : (patchOp reps op).2 = 0 := by omega
    have h2 : (patchPageOps reps os).2 = 0 := by
      simp only [patchPageOps]
      omega
    have htail := ih h2
    simp only [patchPageOps] at htail
    rw [patchOp_snd_zero reps op h1, htail]

theorem keepPatch_valid (p : PdfReplacementPatch) (hk : keepPatch p = true) :
    p.original_text ≠ [] ∧ p.original_text ≠ p.new_text := by
  obtain ⟨htrim, hne⟩ := (keepPatch_true_iff p).mp hk
  exact ⟨fun h => htrim (by simp [h, rustTrim_nil]), hne⟩

theorem replaceCore_single_snd (p : PdfReplacementPatch)
    (hA : p.original_text ≠ []) (hAB : p.original_text ≠ p.new_text)
    (text : List Char) :
    (replaceCore text [p]).2 = countMatches p.original_text text ∧
    (0 < countMatches p.original_text text →
      (replaceCore text [p]).1 = replaceList p.original_text p.new_text text) ∧
    (countMatches p.original_text text = 0 → (replaceCore text [p]).1 = text) := by
  have hg : ¬(p.original_text = [] ∨ p.original_text = p.new_text) :=
    fun h => h.elim hA hAB
  by_cases hm : 0 < countMatches p.original_text text
  · unfold replaceCore
    rw [replaceCoreAux_apply _ _ _ hg hm]
    refine ⟨?_, fun _ => rfl, fun hz => absurd hm (by omega)⟩
    show 0 + countMatches p.original_text text = countMatches p.original_text text
    omega
  · unfold replaceCore
    rw [replaceCoreAux_noHits _ _ _ hm]
    have hz : countMatches p.original_text text = 0 := by omega
    exact ⟨by rw [hz]; rfl, fun hp => absurd hp hm, fun _ => rfl⟩

theorem patchStr_single (p : PdfReplacementPatch)
    (hA : p.original_text ≠ []) (hAB : p.original_text ≠ p.new_text)
    (raw : List Nat) :
    (patchStr [p] raw).2 = countMatches p.original_text (utf8LossyDecode raw) ∧
    (0 < countMatches p.original_text (utf8LossyDecode raw) →
      patchStr [p] raw =
        (utf8Encode (replaceList p.original_text p.new_text (utf8LossyDecode raw)),
          countMatches p.original_text (utf8LossyDecode raw))) := by
  have hsnd : (replace_in_text raw [p]).2 =
      countMatches p.original_text (utf8LossyDecode raw) :=
    (replaceCore_single_snd p hA hAB (utf8LossyDecode raw)).1
  by_cases hm : 0 < countMatches p.original_text (utf8LossyDecode raw)
  · constructor
    · unfold patchStr
      rw [if_pos (by rw [hsnd]; exact hm)]
      exact hsnd
    · intro _
      unfold patchStr
      rw [if_pos (by rw [hsnd]; exact hm)]
      unfold replace_in_text
      rw [(replaceCore_single_snd p hA hAB (utf8LossyDecode raw)).2.1 hm,
        (replaceCore_single_snd p hA hAB (utf8LossyDecode raw)).1]
  · refine ⟨?_, fun hp => absurd hp hm⟩
    unfold patchStr
    rw [if_neg (by rw [hsnd]; exact hm)]
    show 0 = countMatches p.original_text (utf8LossyDecode raw)
    omega

theorem patchEntry_snd_single (p : PdfReplacementPatch)
    (hA : p.original_text ≠ []) (hAB : p.original_text ≠ p.new_text)
    (o : PdfObj) :
    (patchEntry [p] o).2 = objMatches p.original_text o := by
  cases o with
  | str raw => exact (patchStr_single p hA hAB raw).1
  | arr items => rfl
  | num v => rfl
  | other => rfl

theorem map_patchEntry_snd_single (p : PdfReplacementPatch)
    (hA : p.original_text ≠ []) (hAB : p.original_text ≠ p.new_text)
    (items : List PdfObj) :
    ((items.map (patchEntry [p])).map Prod.snd).sum =
      (items.map (objMatches p.original_text)).sum := by
  induction items with
  | nil => rfl
  | cons e es ih =>
    simp only [List.map_cons, List.sum_cons, ih,
      patchEntry_snd_single p hA hAB e]

theorem patchOp_snd_single (p : PdfReplacementPatch)
    (hA : p.original_text ≠ []) (hAB : p.original_text ≠ p.new_text)
    (op : Operation) :
    (patchOp [p] op).2 = opMatches p.original_text op := by
  obtain ⟨oper, ods⟩ := op
  unfold patchOp opMatches
  by_cases h1 : (Operation.mk oper ods).operator = "Tj" ∨
      (Operation.mk oper ods).operator = "'" ∨
      (Operation.mk oper ods).operator = "\""
  · rw [if_pos h1, if_pos h1]
    cases ods with
    | nil => rfl
    | cons o rest =>
      cases o with
      | str raw => exact (patchStr_single p hA hAB raw).1
      | arr items => rfl
      | num v => rfl
      | other => rfl
  · rw [if_neg h1, if_neg h1]
    by_cases h2 : (Operation.mk oper ods).operator = "TJ"
    · rw [if_pos h2, if_pos h2]
      cases ods with
      | nil => rfl
      | cons o rest =>
        cases o with
        | str raw => rfl
        | arr items => exact map_patchEntry_snd_single p hA hAB items
        | num v => rfl
        | other => rfl
    · rw [if_neg h2, if_neg h2]

theorem patchPageOps_snd_single (p : PdfReplacementPatch)
    (hA : p.original_text ≠ []) (hAB : p.original_text ≠ p.new_text)
    (ops : List Operation) :
    (patchPageOps [p] ops).2 = (ops.map (opMatches p.original_text)).sum := by
  induction ops with
  | nil => rfl
  | cons op os ih =>
    simp only [patchPageOps, List.map_cons, List.sum_cons] at ih ⊢
    rw [patchOp_snd_single p hA hAB op, ih]

theorem processPages_length (reps : List PdfReplacementPatch) :
    ∀ (pages : List Page) (n : Nat),
      (processPages reps pages n).1.length = pages.length := by
  intro pages
  induction pages with
  | nil => intro n; rfl
  | cons pg rest ih =>
    intro n
    rw [processPages]
    by_cases hc : 0 < (patchPageOps reps pg.ops).2
    · rw [if_pos hc]
      simp [ih]
    · rw [if_neg hc]
      simp [ih]

theorem processPages_total (reps : List PdfReplacementPatch) :
    ∀ (pages : List Page) (n : Nat),
      (processPages reps pages n).2.2 =
        (pages.map (fun pg => (patchPageOps reps pg.ops).2)).sum := by
  intro pages
  induction pages with
  | nil => intro n; rfl
  | cons pg rest ih =>
    intro n
    rw [processPages]
    by_cases hc : 0 < (patchPageOps reps pg.ops).2
    · rw [if_pos hc]
      simp [ih]
    · rw [if_neg hc]
      simp [ih]

theorem processPages_getD (reps : List PdfReplacementPatch) :
    ∀ (pages : List Page) (n i : Nat), i < pages.length →
      ((patchPageOps reps (pages.getD i dfltPage).ops).2 = 0 →
        (processPages reps pages n).1.getD i dfltPage = pages.getD i dfltPage) ∧
      (0 < (patchPageOps reps (pages.getD i dfltPage).ops).2 →
        ((processPages reps pages n).1.getD i dfltPage).page_id =
          (pages.getD i dfltPage).page_id ∧
        ((processPages reps pages n).1.getD i dfltPage).ops =
          (patchPageOps reps (pages.getD i dfltPage).ops).1 ∧
        n < ((processPages reps pages n).1.getD i dfltPage).contents_ref) := by
  intro pages
  induction pages with
  | nil =>
    intro n i h
    simp at h
  | cons pg rest ih =>
    intro n i h
    rw [processPages]
    by_cases hc : 0 < (patchPageOps reps pg.ops).2
    · rw [if_pos hc]
      cases i with
      | zero =>
        simp only [List.getD_cons_zero]
        refine ⟨fun h0 => absurd h0 (by omega), fun _ => ⟨?_, ?_, ?_⟩⟩
        · trivial
        · trivial
        · exact Nat.lt_succ_self n
      | succ j =>
        simp only [List.getD_cons_succ]
        have hj : j < rest.length := by simpa using h
        refine ⟨(ih (n + 1) j hj).1, fun hp => ?_⟩
        obtain ⟨h1, h2, h3⟩ := (ih (n + 1) j hj).2 hp
        exact ⟨h1, h2, by omega⟩
    · rw [if_neg hc]
      cases i with
      | zero =>
        simp only [List.getD_cons_zero]
        refine ⟨fun _ => ?_, fun hp => absurd hp hc⟩
        trivial
      | succ j =>
        simp only [List.getD_cons_succ]
        exact ih n j (by simpa using h)

/-- C5: both no-op conditions — an empty filtered patch list and a zero total
hit count — produce a successful (`Except.ok`, non-error) response with
`success = false`, `replaced_count = 0` and no output document, and the two
cases differ only in their message text. -/
theorem c5_noop_responses :
    (∀ (reps : List PdfReplacementPatch) (doc : PdfDoc),
      (reps.filter keepPatch).isEmpty = true →
      native_pdf_patch_core reps doc = .ok ⟨false, engineName, 0, none, msgNoValid⟩) ∧
    (∀ (reps : List PdfReplacementPatch) (doc : PdfDoc),
      (reps.filter keepPatch).isEmpty = false →
      (processPages (reps.filter keepPatch) doc.pages doc.max_id).2.2 = 0 →
      native_pdf_patch_core reps doc = .ok ⟨false, engineName, 0, none, msgNoMatch⟩) ∧
    msgNoValid ≠ msgNoMatch := by
  refine ⟨?_, ?_, by decide⟩
  · intro reps doc h
    unfold native_pdf_patch_core
    rw [if_pos h]
  · intro reps doc h h0
    unfold native_pdf_patch_core
    rw [if_neg (by simp [h]), if_pos h0]

theorem c5_witness :
    native_pdf_patch_core [⟨[], []⟩] ⟨[], 0⟩ =
      .ok ⟨false, engineName, 0, none, msgNoValid⟩ ∧
    native_pdf_patch_core [⟨['a'], ['b']⟩] ⟨[], 7⟩ =
      .ok ⟨false, engineName, 0, none, msgNoMatch⟩ :=
  ⟨c5_noop_responses.1 _ _ (by decide),
    c5_noop_responses.2.1 _ _ (by decide) (by decide)⟩

/-- C6: a page whose operations yield zero hits is passed through untouched —
the whole page record, hence its `Contents` reference, is identical — while a
page with at least one changed operation gets a freshly allocated stream id
(strictly above the incoming allocation high-water mark) as its new
`Contents` reference, so its `Contents` entry really is overwritten whenever
the old reference was a live id. -/
theorem c6_unchanged_pages_untouched (reps : List PdfReplacementPatch)
    (pages : List Page) (n0 i : Nat) (h : i < pages.length) :
    (processPages reps pages n0).1.length = pages.length ∧
    ((patchPageOps reps (pages.getD i dfltPage).ops).2 = 0 →
      (processPages reps pages n0).1.getD i dfltPage = pages.getD i dfltPage) ∧
    (0 < (patchPageOps reps (pages.getD i dfltPage).ops).2 →
      ((processPages reps pages n0).1.getD i dfltPage).page_id =
        (pages.getD i dfltPage).page_id ∧
      ((processPages reps pages n0).1.getD i dfltPage).ops =
        (patchPageOps reps (pages.getD i dfltPage).ops).1 ∧
      n0 < ((processPages reps pages n0).1.getD i dfltPage).contents_ref ∧
      ((pages.getD i dfltPage).contents_ref ≤ n0 →
        (processPages reps pages n0).1.getD i dfltPage ≠ pages.getD i dfltPage)) := by
  refine ⟨processPages_length reps pages n0,
    (processPages_getD reps pages n0 i h).1, fun hp => ?_⟩
  obtain ⟨h1, h2, h3⟩ := (processPages_getD reps pages n0 i h).2 hp
  refine ⟨h1, h2, h3, fun hle heq => ?_⟩
  rw [heq] at h3
  omega

theorem c6_witness :
    (processPages [⟨['b'], ['c']⟩]
        [⟨1, 3, [⟨"Tj", [PdfObj.str [97]]⟩]⟩] 3).1.getD 0 dfltPage =
      ⟨1, 3, [⟨"Tj", [PdfObj.str [97]]⟩]⟩ ∧
    3 < ((processPages [⟨['a'], ['c']⟩]
        [⟨1, 3, [⟨"Tj", [PdfObj.str [97]]⟩]⟩] 3).1.getD 0 dfltPage).contents_ref :=
  ⟨(c6_unchanged_pages_untouched [⟨['b'], ['c']⟩]
      [⟨1, 3, [⟨"Tj", [PdfObj.str [97]]⟩]⟩] 3 0 (by decide)).2.1 (by decide),
    ((c6_unchanged_pages_untouched [⟨['a'], ['c']⟩]
      [⟨1, 3, [⟨"Tj", [PdfObj.str [97]]⟩]⟩] 3 0 (by decide)).2.2 (by decide)).2.2.1⟩

/-- C1 counterexample: two concrete inputs where the claim as stated fails.
Left: the patch `(" ", "x")` satisfies the claim's validity notion (non-empty
`originalText` differing from `newText`) and `docSpace` carries exactly one
occurrence of `" "` inside a `Tj` show-text operand, yet the operation
returns the no-valid-patches no-op with `replaced_count = 0 ≠ 1`, because the
filter trims the whitespace-only `originalText` to empty. Right: the patch
`("Hello", "Bye")` even passes the code's own filter and `docQuote` carries
exactly one occurrence of `"Hello"` inside the string operand of a conforming
`"` show-text operation, yet the operation returns the no-matches no-op with
`replaced_count = 0 ≠ 1`, because the code examines only operand index 0
while that operator's string operand is third. Occurrences are counted by
the spec-side `specDocMatches`. -/
theorem c1_claim_counterexample :
    (([' '] : List Char) ≠ [] ∧ ([' '] : List Char) ≠ ['x'] ∧
      specDocMatches [' '] docSpace = 1 ∧
      native_pdf_patch_core [⟨[' '], ['x']⟩] docSpace =
        .ok ⟨false, engineName, 0, none, msgNoValid⟩) ∧
    (keepPatch ⟨['H', 'e', 'l', 'l', 'o'], ['B', 'y', 'e']⟩ = true ∧
      specDocMatches ['H', 'e', 'l', 'l', 'o'] docQuote = 1 ∧
      native_pdf_patch_core [⟨['H', 'e', 'l', 'l', 'o'], ['B', 'y', 'e']⟩] docQuote =
        .ok ⟨false, engineName, 0, none, msgNoMatch⟩) :=
  ⟨⟨by decide, by decide, by decide, rfl⟩, ⟨by decide, by decide, rfl⟩⟩

/-- C1 (amended): for a document whose examined show-text operand positions —
the first operand of a `Tj`/`'`/`"` operation when it is a string, and the
string entries of a `TJ` operation's first-operand array — contain `N ≥ 1`
non-overlapping occurrences of the patch's `original_text` (counted before
substitution by `docMatches`), and a single patch that passes the code's
filter (`original_text` does not trim to empty and differs from `new_text`),
patching succeeds with `replaced_count = N`, the output document has the same
pages with every content operation rewritten by `patchOp`, and every string
operand with a positive match count carries the encoded `replaceList`
substitution (replacement text at every matched location). -/
theorem c1_single_patch_replacement (p : PdfReplacementPatch) (doc : PdfDoc)
    (N : Nat) (hk : keepPatch p = true)
    (hN : docMatches p.original_text doc = N) (hpos : 1 ≤ N) :
    isErrB (native_pdf_patch_core [p] doc) = false ∧
    (respOf (native_pdf_patch_core [p] doc)).success = true ∧
    (respOf (native_pdf_patch_core [p] doc)).replaced_count = N ∧
    (outDocOf (respOf (native_pdf_patch_core [p] doc))).pages.length =
      doc.pages.length ∧
    (∀ i, i < doc.pages.length →
      ((outDocOf (respOf (native_pdf_patch_core [p] doc))).pages.getD i dfltPage).ops =
        (doc.pages.getD i dfltPage).ops.map (fun op => (patchOp [p] op).1)) ∧
    (∀ raw : List Nat, 0 < countMatches p.original_text (utf8LossyDecode raw) →
      patchStr [p] raw =
        (utf8Encode (replaceList p.original_text p.new_text (utf8LossyDecode raw)),
          countMatches p.original_text (utf8LossyDecode raw))) := by
  obtain ⟨hA, hAB⟩ := keepPatch_valid p hk
  have hfil : [p].filter keepPatch = [p] := by simp [hk]
  have htot : (processPages [p] doc.pages doc.max_id).2.2 = N := by
    rw [processPages_total, ← hN]
    unfold docMatches pageMatches
    have hfun : (fun pg : Page => (patchPageOps [p] pg.ops).2) =
        (fun pg : Page => (pg.ops.map (opMatches p.original_text)).sum) :=
      funext fun pg => patchPageOps_snd_single p hA hAB pg.ops
    rw [hfun]
  unfold native_pdf_patch_core
  rw [hfil]
  rw [if_neg (by simp)]
  rw [if_neg (by rw [htot]; omega)]
  refine ⟨rfl, rfl, htot, processPages_length [p] doc.pages doc.max_id,
    ?_, ?_⟩
  · intro i hi
    by_cases hz : (patchPageOps [p] (doc.pages.getD i dfltPage).ops).2 = 0
    · have heq := (processPages_getD [p] doc.pages doc.max_id i hi).1 hz
      show ((processPages [p] doc.pages doc.max_id).1.getD i dfltPage).ops =
        (doc.pages.getD i dfltPage).ops.map (fun op => (patchOp [p] op).1)
      rw [heq, ← patchPageOps_fst]
      exact (patchPageOps_fst_of_sum_zero [p] (doc.pages.getD i dfltPage).ops hz).symm
    · have hp : 0 < (patchPageOps [p] (doc.pages.getD i dfltPage).ops).2 := by omega
      obtain ⟨_, h2, _⟩ := (processPages_getD [p] doc.pages doc.max_id i hi).2 hp
      show ((processPages [p] doc.pages doc.max_id).1.getD i dfltPage).ops =
        (doc.pages.getD i dfltPage).ops.map (fun op => (patchOp [p] op).1)
      rw [h2, patchPageOps_fst]
  · intro raw hm
    exact (patchStr_single p hA hAB raw).2 hm

theorem c1_witness :
    (respOf (native_pdf_patch_core [pW] docW)).success = true ∧
    (respOf (native_pdf_patch_core [pW] docW)).replaced_count = 1 := by
  have h := c1_single_patch_replacement pW docW 1 (by decide) (by decide) (by decide)
  exact ⟨h.2.1, h.2.2.1⟩

/-- C9: `data_url_to_bytes` rejects its input exactly when the data URL lacks
a comma separator, or its meta part before the first comma lacks the
`;base64` marker, or its payload after the comma is not valid base64; in
every other case the decoded payload bytes are returned. -/
theorem c9_data_url_rejection_iff :
    (∀ s : List Char, isErrBytes (data_url_to_bytes s) = malformedDataUrl s) ∧
    (∀ (s meta payload : List Char) (bs : List Nat),
      findComma s = some (meta, payload) →
      containsSub b64marker meta = true →
      base64Decode payload = some bs →
      data_url_to_bytes s = .ok bs) := by
  constructor
  · intro s
    unfold data_url_to_bytes malformedDataUrl
    cases hfc : findComma s with
    | none => rfl
    | some mp =>
      obtain ⟨meta, payload⟩ := mp
      by_cases hc : containsSub b64marker meta = true
      · cases hd : base64Decode payload with
        | none => simp [hc, hd, isErrBytes]
        | some bs => simp [hc, hd, isErrBytes]
      · simp only [Bool.not_eq_true] at hc
        simp [hc, isErrBytes]
  · intro s meta payload bs h1 h2 h3
    unfold data_url_to_bytes
    rw [h1]
    dsimp only
    rw [if_pos h2, h3]

theorem c9_witness :
    data_url_to_bytes ("data:application/pdf;base64,QQ==".toList) = .ok [65] :=
  c9_data_url_rejection_iff.2 ("data:application/pdf;base64,QQ==".toList)
    ("data:application/pdf;base64".toList) ("QQ==".toList) [65]
    (by decide) (by decide) (by decide)

end TrustLens
